import Mathlib

/-!
Verification development for the Lumera Research Archive draft-collaboration core
(src/crypto.ts, src/paper.ts, src/drafts.ts, src/lumescope.ts).

Modelling conventions:
* Byte buffers are modelled symbolically by the message algebra Data below.
  The libsodium XChaCha20-Poly1305 secretbox is modelled as an ideal
  authenticated cipher: a ciphertext records the plaintext, nonce and key it
  was built from, and opening succeeds exactly when the same nonce and key are
  supplied.  This is the standard symbolic model of an AEAD primitive.
* Base64 text (to_base64 / from_base64 in crypto.ts) is a bijective encoding
  of byte buffers, modelled by the wrapper type B64; the empty string used as
  the placeholder KeyShare sentinel is modelled by B64.empty.
* Randomness (fresh nonces, generated keys, draft ids) and the clock are
  passed in explicitly; asynchronous I/O outcomes (uploads, downloads, the
  index query) are passed in as explicit values, so every operation of
  drafts.ts becomes a pure function on an explicit local store.
-/

namespace LumeraArchive

/-- Symbolic byte buffers: raw bytes, hash outputs (crypto_generichash), and
secretbox ciphertexts recording plaintext, nonce and key. -/
inductive Data where
  | bytes (l : List Nat)
  | hash (outLen : Nat) (d : Data)
  | box (content : Data) (nonce : Data) (key : Data)
deriving DecidableEq, Repr

/-- sodium.crypto_secretbox_easy: build an authenticated ciphertext. -/
def crypto_secretbox_easy (content nonce key : Data) : Data :=
  .box content nonce key

/-- sodium.crypto_secretbox_open_easy: opening succeeds exactly when the nonce
and key match the ones the ciphertext was built with (AEAD tag check). -/
def crypto_secretbox_open_easy (c nonce key : Data) : Option Data :=
  match c with
  | .box content n k => if n = nonce ∧ k = key then some content else none
  | _ => none

/-- sodium.crypto_generichash (BLAKE2b) with a given output length. -/
def crypto_generichash (outLen : Nat) (d : Data) : Data :=
  .hash outLen d

/-- Base64 text values crossing the storage boundary.  B64.empty models the
literal empty string used as the placeholder-KeyShare sentinel. -/
inductive B64 where
  | empty
  | enc (d : Data)
deriving DecidableEq, Repr

/-- sodium.to_base64. -/
def to_base64 (d : Data) : B64 := .enc d

/-- sodium.from_base64; the empty string decodes to an empty byte buffer. -/
def from_base64 : B64 → Data
  | .empty => .bytes []
  | .enc d => d

/-- JS string truthiness check on a base64 field (empty string is falsy). -/
def B64.isEmpty : B64 → Bool
  | .empty => true
  | .enc _ => false

/-- crypto.ts EncryptedDocument. -/
structure EncryptedDocument where
  ciphertext : B64
  nonce : B64
  algorithm : String
deriving DecidableEq, Repr

/-- crypto.ts EncryptedKeyShare. -/
structure EncryptedKeyShare where
  wallet : String
  encryptedKey : B64
  nonce : B64
deriving DecidableEq, Repr

/-- crypto.ts encryptDocument.  The freshly generated random nonce is passed
in explicitly (sodium.randombytes_buf). -/
def encryptDocument (content documentKey nonceFresh : Data) : EncryptedDocument :=
  { ciphertext := to_base64 (crypto_secretbox_easy content nonceFresh documentKey)
  , nonce := to_base64 nonceFresh
  , algorithm := "xchacha20-poly1305" }

/-- crypto.ts decryptDocument; throwing is modelled by Except.error carrying
the thrown message. -/
def decryptDocument (encrypted : EncryptedDocument) (documentKey : Data) :
    Except String Data :=
  match crypto_secretbox_open_easy (from_base64 encrypted.ciphertext)
      (from_base64 encrypted.nonce) documentKey with
  | some plaintext => .ok plaintext
  | none => .error "Decryption failed - invalid key or corrupted data"

/-- crypto.ts deriveKeyFromSignature: BLAKE2b hash of the signature down to
the secretbox key size. -/
def deriveKeyFromSignature (signature : Data) : Data :=
  crypto_generichash 32 signature

/-- crypto.ts encryptKeyForCollaborator: wrap a document key under a
wallet-derived key; fresh random nonce passed in explicitly. -/
def encryptKeyForCollaborator (documentKey collaboratorDerivedKey : Data)
    (collaboratorWallet : String) (nonceFresh : Data) : EncryptedKeyShare :=
  { wallet := collaboratorWallet
  , encryptedKey := to_base64 (crypto_secretbox_easy documentKey nonceFresh collaboratorDerivedKey)
  , nonce := to_base64 nonceFresh }

/-- crypto.ts decryptKeyShare. -/
def decryptKeyShare (share : EncryptedKeyShare) (derivedKey : Data) :
    Except String Data :=
  match crypto_secretbox_open_easy (from_base64 share.encryptedKey)
      (from_base64 share.nonce) derivedKey with
  | some documentKey => .ok documentKey
  | none => .error "Failed to decrypt key share - invalid credentials"

/-! Data model of paper.ts (draft-related records). -/

/-- paper.ts DocumentStatus.  The spec calls the initial state "private";
the code spells it as the string literal draft. -/
inductive DocumentStatus where
  | draft
  | shared
  | published
deriving DecidableEq, Repr

/-- paper.ts Author. -/
structure Author where
  name : String
  wallet : Option String
deriving DecidableEq, Repr

/-- paper.ts Collaborator.  documentKeyBase64 is optional and only ever set
on the owner's local copy. -/
structure Collaborator where
  wallet : String
  name : String
  keyShare : EncryptedKeyShare
  addedAt : Nat
  addedBy : String
  documentKeyBase64 : Option B64
deriving DecidableEq, Repr

/-- paper.ts DraftVersion (a VersionRecord). -/
structure DraftVersion where
  version : Nat
  actionId : String
  createdAt : Nat
  createdBy : String
  message : Option String
deriving DecidableEq, Repr

/-- paper.ts Draft (the locally stored root entity). -/
structure Draft where
  draftId : String
  title : String
  status : DocumentStatus
  ownerEncryptedKey : B64
  ownerKeyNonce : B64
  owner : String
  collaborators : List Collaborator
  versions : List DraftVersion
  createdAt : Nat
  updatedAt : Nat
deriving DecidableEq, Repr

/-- paper.ts EncryptedDraftManifest.metadata. -/
structure DraftMetadata where
  title : String
  abstract : String
  authors : List Author
  keywords : List String
  citations : List String
  draftId : String
  version : Nat
  createdBy : String
  createdAt : Nat
deriving DecidableEq, Repr

/-- paper.ts EncryptedDraftManifest (the unit persisted to the shared store). -/
structure EncryptedDraftManifest where
  version : Nat
  type : String
  metadata : DraftMetadata
  encrypted : EncryptedDocument
deriving DecidableEq, Repr

/-- The keyShare sub-record of a CollaborationInvitation. -/
structure KeyShareRecord where
  wallet : String
  encryptedKey : B64
  nonce : B64
deriving DecidableEq, Repr

/-- paper.ts CollaborationInvitation (persisted to the shared store). -/
structure CollaborationInvitation where
  version : Nat
  type : String
  draftId : String
  draftTitle : String
  owner : String
  ownerName : Option String
  invitedWallet : String
  keyShare : KeyShareRecord
  latestVersion : Nat
  latestActionId : String
  createdAt : Nat
  invitedBy : String
deriving DecidableEq, Repr

/-- lumescope.ts LumescopeAction, restricted to the fields the drafts module
reads; fileName stands for decoded.file_name with absent decoded data
represented by the empty string (the code's fallback). -/
structure LumescopeAction where
  id : String
  type : String
  creator : String
  state : String
  fileName : String
deriving DecidableEq, Repr

/-! Local draft store (drafts.ts localStorage section).  The store is the
JSON array of Draft records under the single storage key, modelled as a
List Draft that every operation threads explicitly. -/

/-- drafts.ts getDraft: first record with the given draftId. -/
def getDraft (store : List Draft) (draftId : String) : Option Draft :=
  store.find? (fun d => d.draftId == draftId)

/-- drafts.ts saveDraft: replace the first record with the same draftId, or
append when none exists (findIndex / set-or-push). -/
def saveDraft : List Draft → Draft → List Draft
  | [], draft => [draft]
  | d :: rest, draft =>
      if d.draftId == draft.draftId then draft :: rest
      else d :: saveDraft rest draft

/-- Distinct failures thrown by the drafts module; one constructor per throw
site, so callers can tell the failures apart just as the UI does by matching
on the thrown message. -/
inductive DraftError where
  | clientNotInitialized
  | notConnected
  | draftNotFound
  | versionNotFound
  | invalidDraftData
  | noKeyShare
  | noAccess
  | keyShareDecryptionFailed
  | decryptionFailed
  | alreadyCollaborator
  | notOwner
  | uploadFailed (msg : String)
deriving DecidableEq, Repr

/-- drafts.ts getDocumentKey.  The connected wallet address and the session's
derived key (result of getOrDeriveDerivedKey) are explicit inputs. -/
def getDocumentKey (draft : Draft) (wallet : Option String) (derivedKey : Data) :
    Except DraftError Data :=
  match wallet with
  | none => .error .notConnected
  | some w =>
    if draft.owner = w then
      match decryptKeyShare ⟨w, draft.ownerEncryptedKey, draft.ownerKeyNonce⟩ derivedKey with
      | .ok k => .ok k
      | .error _ => .error .keyShareDecryptionFailed
    else
      match draft.collaborators.find? (fun c => c.wallet == w) with
      | some collaborator =>
          if collaborator.keyShare.encryptedKey.isEmpty || collaborator.keyShare.nonce.isEmpty then
            .error .noKeyShare
          else
            match decryptKeyShare collaborator.keyShare derivedKey with
            | .ok k => .ok k
            | .error _ => .error .keyShareDecryptionFailed
      | none => .error .noAccess

/-- The version lookup of loadDraftContent: the requested index, or the last
known version when no index is given. -/
def selectVersion (draft : Draft) (versionIndex : Option Nat) : Option DraftVersion :=
  match versionIndex with
  | some i => draft.versions.get? i
  | none => draft.versions.get? (draft.versions.length - 1)

/-- drafts.ts loadDraftContent.  The download-and-parse of the manifest for a
content handle is an explicit input (None models both a failed download and a
manifest rejected by parseEncryptedDraftManifest). -/
def loadDraftContent (clientInitialized : Bool) (store : List Draft)
    (draftId : String) (versionIndex : Option Nat) (wallet : Option String)
    (derivedKey : Data) (download : String → Option EncryptedDraftManifest) :
    Except DraftError (Data × DraftVersion) :=
  if clientInitialized = false then .error .clientNotInitialized
  else
    match getDraft store draftId with
    | none => .error .draftNotFound
    | some draft =>
      match selectVersion draft versionIndex with
      | none => .error .versionNotFound
      | some version =>
        match download version.actionId with
        | none => .error .invalidDraftData
        | some manifest =>
          match getDocumentKey draft wallet derivedKey with
          | .error e => .error e
          | .ok documentKey =>
            match decryptDocument manifest.encrypted documentKey with
            | .ok decryptedBytes => .ok (decryptedBytes, version)
            | .error _ => .error .decryptionFailed

/-- Optional metadata argument of createDraft (defaults applied inside). -/
structure CreateDraftMetadata where
  abstract : Option String
  authors : Option (List Author)
  keywords : Option (List String)
  citations : Option (List String)
deriving DecidableEq, Repr

/-- Environment of one createDraft invocation: session facts, the randomness
drawn during the call, the clock, and the outcome of the Cascade upload. -/
structure CreateDraftEnv where
  clientInitialized : Bool
  connectedAddress : Option String
  documentKey : Data
  contentNonce : Data
  keyWrapNonce : Data
  derivedKey : Data
  draftId : String
  now : Nat
  uploadOutcome : Except String String
deriving Repr

/-- drafts.ts createDraft.  Returns the operation result (the new Draft, the
manifest handed to the uploader and its file name) together with the updated
local store; every failure leaves the store untouched because saveDraft is
only reached after a successful upload. -/
def createDraft (store : List Draft) (title : String) (content : Data)
    (metadata : CreateDraftMetadata) (env : CreateDraftEnv) :
    Except DraftError (Draft × EncryptedDraftManifest × String) × List Draft :=
  if env.clientInitialized = false then (.error .clientNotInitialized, store)
  else
    match env.connectedAddress with
    | none => (.error .notConnected, store)
    | some owner =>
      let encrypted := encryptDocument content env.documentKey env.contentNonce
      let ownerKeyShare :=
        encryptKeyForCollaborator env.documentKey env.derivedKey owner env.keyWrapNonce
      let manifest : EncryptedDraftManifest :=
        { version := 1
        , type := "encrypted_draft"
        , metadata :=
          { title := title
          , abstract := metadata.abstract.getD ""
          , authors := metadata.authors.getD [⟨owner, some owner⟩]
          , keywords := metadata.keywords.getD []
          , citations := metadata.citations.getD []
          , draftId := env.draftId
          , version := 1
          , createdBy := owner
          , createdAt := env.now }
        , encrypted := encrypted }
      let fileName := "draft_" ++ env.draftId ++ "_v1.json"
      match env.uploadOutcome with
      | .error e => (.error (.uploadFailed e), store)
      | .ok actionId =>
        let draft : Draft :=
          { draftId := env.draftId
          , title := title
          , status := .draft
          , ownerEncryptedKey := ownerKeyShare.encryptedKey
          , ownerKeyNonce := ownerKeyShare.nonce
          , owner := owner
          , collaborators := []
          , versions := [⟨1, actionId, env.now, owner, some "Initial draft"⟩]
          , createdAt := env.now
          , updatedAt := env.now }
        (.ok (draft, manifest, fileName), saveDraft store draft)

/-- Environment of one saveDraftVersion invocation. -/
structure SaveVersionEnv where
  clientInitialized : Bool
  connectedAddress : Option String
  contentNonce : Data
  derivedKey : Data
  now : Nat
  uploadOutcome : Except String String
deriving Repr

/-- drafts.ts saveDraftVersion.  The next version number is the version of
the last record of the local versions list plus one; on success exactly one
VersionRecord is appended and the updated draft is written back to the
store. -/
def saveDraftVersion (store : List Draft) (draftId : String) (content : Data)
    (message : Option String) (env : SaveVersionEnv) :
    Except DraftError (DraftVersion × EncryptedDraftManifest × String) × List Draft :=
  if env.clientInitialized = false then (.error .clientNotInitialized, store)
  else
    match getDraft store draftId with
    | none => (.error .draftNotFound, store)
    | some draft =>
      match env.connectedAddress with
      | none => (.error .notConnected, store)
      | some owner =>
        match getDocumentKey draft (some owner) env.derivedKey with
        | .error e => (.error e, store)
        | .ok documentKey =>
          let encrypted := encryptDocument content documentKey env.contentNonce
          match draft.versions.getLast? with
          | none => (.error .versionNotFound, store)
          | some latestVersion =>
            let newVersionNum := latestVersion.version + 1
            let manifest : EncryptedDraftManifest :=
              { version := 1
              , type := "encrypted_draft"
              , metadata :=
                { title := draft.title
                , abstract := ""
                , authors := [⟨owner, some owner⟩]
                , keywords := []
                , citations := []
                , draftId := draftId
                , version := newVersionNum
                , createdBy := owner
                , createdAt := env.now }
              , encrypted := encrypted }
            let fileName := "draft_" ++ draftId ++ "_v" ++ toString newVersionNum ++ ".json"
            match env.uploadOutcome with
            | .error e => (.error (.uploadFailed e), store)
            | .ok actionId =>
              let version : DraftVersion :=
                ⟨newVersionNum, actionId, env.now, owner, message⟩
              let updated : Draft :=
                { draft with
                    versions := draft.versions ++ [version]
                  , updatedAt := env.now }
              (.ok (version, manifest, fileName), saveDraft store updated)

/-- drafts.ts uploadCollaborationInvitation: the invitation record built and
persisted for a collaborator, together with its deterministic file name.
Returns none when the draft has no versions (the code would fault reading the
latest version; addCollaborator swallows that inside its try/catch). -/
def uploadCollaborationInvitation (draft : Draft) (collaborator : Collaborator)
    (now : Nat) : Option (CollaborationInvitation × String) :=
  match draft.versions.getLast? with
  | none => none
  | some latestVersion =>
      some
        ( { version := 1
          , type := "draft_invitation"
          , draftId := draft.draftId
          , draftTitle := draft.title
          , owner := draft.owner
          , ownerName := some draft.owner
          , invitedWallet := collaborator.wallet
          , keyShare :=
            { wallet := collaborator.wallet
            , encryptedKey := collaborator.keyShare.encryptedKey
            , nonce := collaborator.keyShare.nonce }
          , latestVersion := latestVersion.version
          , latestActionId := latestVersion.actionId
          , createdAt := now
          , invitedBy := draft.owner }
        , "invitation_" ++ collaborator.wallet ++ "_" ++ draft.draftId ++ ".json" )

/-- Environment of one addCollaborator invocation. -/
structure AddCollaboratorEnv where
  connectedAddress : Option String
  derivedKey : Data
  now : Nat
deriving Repr

/-- drafts.ts addCollaborator.  Appends a Collaborator carrying the empty
placeholder KeyShare, flips the status to shared, saves locally, then
builds the invitation artifact (whose upload is best-effort and does not
affect the result). -/
def addCollaborator (store : List Draft) (draftId collaboratorWallet collaboratorName : String)
    (env : AddCollaboratorEnv) :
    Except DraftError (Collaborator × Option (CollaborationInvitation × String) × B64) × List Draft :=
  match getDraft store draftId with
  | none => (.error .draftNotFound, store)
  | some draft =>
    match env.connectedAddress with
    | none => (.error .notConnected, store)
    | some owner =>
      if draft.owner ≠ owner then (.error .notOwner, store)
      else if draft.collaborators.any (fun c => c.wallet == collaboratorWallet) then
        (.error .alreadyCollaborator, store)
      else
        match getDocumentKey draft (some owner) env.derivedKey with
        | .error e => (.error e, store)
        | .ok documentKey =>
          let documentKeyBase64 := to_base64 documentKey
          let keyShare : EncryptedKeyShare :=
            { wallet := collaboratorWallet, encryptedKey := .empty, nonce := .empty }
          let collaborator : Collaborator :=
            { wallet := collaboratorWallet
            , name := collaboratorName
            , keyShare := keyShare
            , addedAt := env.now
            , addedBy := owner
            , documentKeyBase64 := some documentKeyBase64 }
          let updated : Draft :=
            { draft with
                collaborators := draft.collaborators ++ [collaborator]
              , status := .shared
              , updatedAt := env.now }
          let invitation := uploadCollaborationInvitation updated collaborator env.now
          (.ok (collaborator, invitation, documentKeyBase64), saveDraft store updated)

/-- Does an action carry the invitation file for this wallet and draft
(type ACTION_TYPE_CASCADE, state ACTION_STATE_DONE, exact file name)? -/
def invitationMatches (draftId wallet : String) (action : LumescopeAction) : Bool :=
  action.type == "ACTION_TYPE_CASCADE" &&
  action.state == "ACTION_STATE_DONE" &&
  action.fileName == ("invitation_" ++ wallet ++ "_" ++ draftId ++ ".json")

/-- drafts.ts verifyInvitationOnCascade over a given index snapshot. -/
def verifyInvitationOnCascade (actions : List LumescopeAction)
    (draftId wallet : String) : Bool :=
  (actions.find? (invitationMatches draftId wallet)).isSome

/-- Environment of one processSecureShareLink invocation: session facts,
wrap-nonce randomness, the index snapshot returned by getAllActions, the
download-and-parse of an invitation artifact by action id, and the clock. -/
structure ShareLinkEnv where
  connectedAddress : Option String
  derivedKey : Data
  wrapNonce : Data
  actions : List LumescopeAction
  invitationDownload : String → Option CollaborationInvitation
  now : Nat

/-- Replace the keyShare of the first collaborator entry with this wallet
(the in-place mutation of the entry found by Array.find). -/
def setKeyShareFirst : List Collaborator → String → EncryptedKeyShare → List Collaborator
  | [], _, _ => []
  | c :: rest, w, ks =>
      if c.wallet == w then { c with keyShare := ks } :: rest
      else c :: setKeyShareFirst rest w ks

/-- drafts.ts importDraftFromCascade: locate the invitation on the index,
download it, wrap the link-carried document key under the acting identity's
derived key and materialize a local shared Draft. -/
def importDraftFromCascade (store : List Draft) (draftId wallet : String)
    (documentKeyBase64 : B64) (env : ShareLinkEnv) : Bool × List Draft :=
  match env.actions.find? (invitationMatches draftId wallet) with
  | none => (false, store)
  | some invitationAction =>
    match env.invitationDownload invitationAction.id with
    | none => (false, store)
    | some invitation =>
      let documentKey := from_base64 documentKeyBase64
      let keyShare := encryptKeyForCollaborator documentKey env.derivedKey wallet env.wrapNonce
      let draft : Draft :=
        { draftId := invitation.draftId
        , title := invitation.draftTitle
        , owner := invitation.owner
        , collaborators :=
          [ { wallet := wallet
            , name := wallet
            , keyShare := keyShare
            , addedAt := invitation.createdAt
            , addedBy := invitation.invitedBy
            , documentKeyBase64 := none } ]
        , status := .shared
        , versions :=
          [ ⟨invitation.latestVersion, invitation.latestActionId,
             invitation.createdAt, invitation.owner, some "Shared draft"⟩ ]
        , ownerEncryptedKey := .empty
        , ownerKeyNonce := .empty
        , createdAt := invitation.createdAt
        , updatedAt := env.now }
      (true, saveDraft store draft)

/-- Outcome of processSecureShareLink; one constructor per returned message. -/
inductive ShareLinkResult where
  | connectWalletFirst
  | ownerOfDraft
  | alreadyHaveAccess
  | keyImported
  | notInvitedLocal
  | notInvited
  | draftImported
  | importFailed
deriving DecidableEq, Repr

/-- Which share-link outcomes report success: true. -/
def ShareLinkResult.success : ShareLinkResult → Bool
  | .ownerOfDraft | .alreadyHaveAccess | .keyImported | .draftImported => true
  | _ => false

/-- drafts.ts processSecureShareLink. -/
def processSecureShareLink (store : List Draft) (draftId : String)
    (documentKeyBase64 : B64) (env : ShareLinkEnv) : ShareLinkResult × List Draft :=
  match env.connectedAddress with
  | none => (.connectWalletFirst, store)
  | some wallet =>
    match getDraft store draftId with
    | some existingDraft =>
      if existingDraft.owner == wallet then (.ownerOfDraft, store)
      else
        match existingDraft.collaborators.find? (fun c => c.wallet == wallet) with
        | some existingCollab =>
          if existingCollab.keyShare.encryptedKey.isEmpty = false then
            (.alreadyHaveAccess, store)
          else
            let documentKey := from_base64 documentKeyBase64
            let keyShare := encryptKeyForCollaborator documentKey env.derivedKey wallet env.wrapNonce
            let updated :=
              { existingDraft with
                  collaborators := setKeyShareFirst existingDraft.collaborators wallet keyShare }
            (.keyImported, saveDraft store updated)
        | none => (.notInvitedLocal, store)
    | none =>
      if verifyInvitationOnCascade env.actions draftId wallet then
        match importDraftFromCascade store draftId wallet documentKeyBase64 env with
        | (true, newStore) => (.draftImported, newStore)
        | (false, newStore) => (.importFailed, newStore)
      else (.notInvited, store)

/-! Version reconciliation (the sync blocks of fetchUserDrafts and
fetchInvitedDrafts in drafts.ts). -/

/-- A version record discovered on the external index (parsed out of a
file name matching the draft versioning convention). -/
structure CascadeVersion where
  version : Nat
  actionId : String
  createdAt : Nat
  createdBy : String
deriving DecidableEq, Repr

/-- Comparison used by the sort calls (a.version - b.version ascending). -/
def CascadeVersion.le (a b : CascadeVersion) : Prop := a.version ≤ b.version

instance : DecidableRel CascadeVersion.le := fun a b => Nat.decLe a.version b.version

instance : IsTotal CascadeVersion CascadeVersion.le :=
  ⟨fun a b => Nat.le_total a.version b.version⟩

instance : IsTrans CascadeVersion CascadeVersion.le :=
  ⟨fun _ _ _ h1 h2 => Nat.le_trans h1 h2⟩

/-- Ascending comparison on local version records. -/
def DraftVersion.le (a b : DraftVersion) : Prop := a.version ≤ b.version

instance : DecidableRel DraftVersion.le := fun a b => Nat.decLe a.version b.version

instance : IsTotal DraftVersion DraftVersion.le :=
  ⟨fun a b => Nat.le_total a.version b.version⟩

instance : IsTrans DraftVersion DraftVersion.le :=
  ⟨fun _ _ _ h1 h2 => Nat.le_trans h1 h2⟩

/-- The synthesized VersionRecord appended for a version discovered on the
index (message tagged Synced from Cascade). -/
def toSyncedVersion (v : CascadeVersion) : DraftVersion :=
  ⟨v.version, v.actionId, v.createdAt, v.createdBy, some "Synced from Cascade"⟩

/-- The push loop: walk the discovered versions in order, appending a
synthesized record whenever no local record carries that version number
(the membership test sees the records pushed so far, as the code pushes
into the list it tests). -/
def pushMissing (locals : List DraftVersion) (cascade : List CascadeVersion) :
    List DraftVersion :=
  cascade.foldl
    (fun acc v =>
      if acc.any (fun lv => lv.version == v.version) then acc
      else acc ++ [toSyncedVersion v])
    locals

/-- The version number of the LAST local record (versions[length-1]), zero
when the list is empty - exactly the code's localLatestVersion expression. -/
def localLatestVersionNum (locals : List DraftVersion) : Nat :=
  ((locals.getLast?).map DraftVersion.version).getD 0

/-- The greatest version number in a list of version records (the "locally
known latest version" of the spec; zero for an empty list). -/
def latestVersionNum (l : List DraftVersion) : Nat :=
  l.foldr (fun v m => max v.version m) 0

/-- The sync block shared by fetchUserDrafts and fetchInvitedDrafts, at the
level of the versions list: sort the discovered versions ascending, and only
when the greatest discovered version number exceeds the last local record's
number, append all missing discovered versions and re-sort; otherwise leave
the local list untouched. -/
def syncVersionsFromCascade (locals : List DraftVersion)
    (cascade : List CascadeVersion) : List DraftVersion :=
  let sortedCascade := List.insertionSort CascadeVersion.le cascade
  match sortedCascade.getLast? with
  | none => locals
  | some latestCascade =>
    if localLatestVersionNum locals < latestCascade.version then
      List.insertionSort DraftVersion.le (pushMissing locals sortedCascade)
    else locals

/-- The same sync block applied to a stored Draft record (versions replaced
and updatedAt refreshed only when the guard fires and the draft is saved). -/
def applyCascadeSync (draft : Draft) (cascade : List CascadeVersion) (now : Nat) : Draft :=
  let sortedCascade := List.insertionSort CascadeVersion.le cascade
  match sortedCascade.getLast? with
  | none => draft
  | some latestCascade =>
    if localLatestVersionNum draft.versions < latestCascade.version then
      { draft with
          versions := List.insertionSort DraftVersion.le (pushMissing draft.versions sortedCascade)
        , updatedAt := now }
    else draft

/-! Session key-derivation state (module-level cachedDerivedKey and
keyDerivationPromise of drafts.ts), modelled as an explicit state machine
over the single-threaded event loop: each concurrent call runs the body of
getOrDeriveDerivedKey synchronously up to the signature await. -/

/-- What a caller of getOrDeriveDerivedKey observes: either the cached key
immediately or the shared in-flight promise identified by its id. -/
inductive DeriveOutcome where
  | value (key : Data)
  | promise (id : Nat)
deriving DecidableEq, Repr

/-- Module-level session state plus instrumentation counting the
user-visible wallet signature requests issued so far. -/
structure KeySessionState where
  cachedDerivedKey : Option Data
  keyDerivationPromise : Option Nat
  signatureRequests : Nat
  nextPromiseId : Nat
deriving DecidableEq, Repr

/-- Fresh session: nothing cached, nothing in flight. -/
def initialKeySession : KeySessionState := ⟨none, none, 0, 0⟩

/-- drafts.ts getOrDeriveDerivedKey, one synchronous call: return the cached
key if present; join the in-flight promise if one exists; otherwise start a
derivation, which issues exactly one signMessage request and publishes the
new in-flight promise. -/
def getOrDeriveDerivedKey (s : KeySessionState) : KeySessionState × DeriveOutcome :=
  match s.cachedDerivedKey with
  | some key => (s, .value key)
  | none =>
    match s.keyDerivationPromise with
    | some pid => (s, .promise pid)
    | none =>
      let pid := s.nextPromiseId
      ( { s with
            keyDerivationPromise := some pid
          , signatureRequests := s.signatureRequests + 1
          , nextPromiseId := pid + 1 }
      , .promise pid )

/-- Completion of the in-flight derivation: the signature arrives, the key is
derived and cached, the promise marker is cleared, and the single promise
value every joined caller receives is returned. -/
def resolveDerivation (s : KeySessionState) (signature : Data) : KeySessionState × Data :=
  let key := deriveKeyFromSignature signature
  ({ s with cachedDerivedKey := some key, keyDerivationPromise := none }, key)

/-- drafts.ts clearDerivedKey (on disconnect). -/
def clearDerivedKey (s : KeySessionState) : KeySessionState :=
  { s with cachedDerivedKey := none, keyDerivationPromise := none }

/-- N calls of getOrDeriveDerivedKey issued back-to-back on the event loop
before any of them resolves, collecting what each caller observes. -/
def concurrentCalls : KeySessionState → Nat → KeySessionState × List DeriveOutcome
  | s, 0 => (s, [])
  | s, n + 1 =>
    let step := getOrDeriveDerivedKey s
    let rest := concurrentCalls step.1 n
    (rest.1, step.2 :: rest.2)

/-! JSON manifest parsing (paper.ts parseEncryptedDraftManifest).  JSON.parse
is a host primitive, passed in as a function returning none when parsing
throws a SyntaxError. -/

/-- Parsed JSON values. -/
inductive Json where
  | null
  | bool (b : Bool)
  | num (n : Int)
  | str (s : String)
  | arr (elems : List Json)
  | obj (fields : List (String × Json))

/-- JS property access v.type: reading a property of null throws a TypeError
(Except.error); reading an absent property or a property of a primitive
yields undefined (none). -/
def jsPropertyAccess (v : Json) (name : String) : Except String (Option Json) :=
  match v with
  | .null => .error "TypeError"
  | .obj fields => .ok ((fields.find? (fun f => f.1 == name)).map (fun f => f.2))
  | _ => .ok none

/-- paper.ts parseEncryptedDraftManifest: null on any parse failure or thrown
TypeError (the try/catch), null when the type discriminant is not the string
encrypted_draft, and the parsed object otherwise (the unchecked cast returns
the object as parsed). -/
def parseEncryptedDraftManifest (jsonParse : String → Option Json)
    (data : String) : Option Json :=
  match jsonParse data with
  | none => none
  | some manifest =>
    match jsPropertyAccess manifest "type" with
    | .error _ => none
    | .ok fieldValue =>
      match fieldValue with
      | some (.str s) => if s == "encrypted_draft" then some manifest else none
      | _ => none

/-- The spec's reading of the discriminant test: the parsed value is an
object whose type field is the string encrypted_draft. -/
def Json.isEncryptedDraftTagged : Json → Bool
  | .obj fields =>
    match Option.map (fun f => f.2) (fields.find? (fun f => f.1 == "type")) with
    | some (Json.str s) => s == "encrypted_draft"
    | _ => false
  | _ => false

/-! Helper lemmas about the local store. -/

/-- A record found by getDraft carries the requested id. -/
theorem getDraft_id {store : List Draft} {draftId : String} {d : Draft}
    (h : getDraft store draftId = some d) : d.draftId = draftId := by
  have := List.find?_some h
  simpa using this

/-- After saveDraft, looking up the saved record's id returns it. -/
theorem getDraft_saveDraft (store : List Draft) (d : Draft) :
    getDraft (saveDraft store d) d.draftId = some d := by
  induction store with
  | nil => simp [saveDraft, getDraft]
  | cons x rest ih =>
    by_cases hx : (x.draftId == d.draftId) = true
    · simp [saveDraft, hx, getDraft, List.find?]
    · simp only [saveDraft, hx, if_false, Bool.false_eq_true]
      simp only [getDraft, List.find?] at *
      simp [hx, ih]

/-- saveDraft followed by a lookup under the saved record's id finds it. -/
theorem getDraft_saveDraft_at {store : List Draft} {d : Draft} {id : String}
    (hid : d.draftId = id) : getDraft (saveDraft store d) id = some d := by
  rw [← hid]
  exact getDraft_saveDraft store d

/-- Any record read back under the saved record's id is that record. -/
theorem saveDraft_lookup {store : List Draft} {d : Draft} {id : String} {d2 : Draft}
    (h : getDraft (saveDraft store d) id = some d2) (hid : d.draftId = id) : d2 = d := by
  rw [← hid, getDraft_saveDraft store d] at h
  injection h with h2
  exact h2.symm

/-! Claim theorems. -/

/-- Claim C8: for all plaintexts P, keys K and nonces, decrypting an
encryption of P under K with K returns P; wrapping a document key D under a
master key M and unwrapping under M returns D; unwrapping under any key
different from M fails with the decryption-failed error. -/
theorem crypto_roundtrip_and_wrap_inverse :
    (∀ (plaintext key nonce : Data),
      decryptDocument (encryptDocument plaintext key nonce) key = .ok plaintext)
    ∧ (∀ (documentKey masterKey : Data) (w : String) (nonce : Data),
        decryptKeyShare (encryptKeyForCollaborator documentKey masterKey w nonce) masterKey
          = .ok documentKey)
    ∧ (∀ (documentKey masterKey otherKey : Data) (w : String) (nonce : Data),
        otherKey ≠ masterKey →
        decryptKeyShare (encryptKeyForCollaborator documentKey masterKey w nonce) otherKey
          = .error "Failed to decrypt key share - invalid credentials") := by
  refine ⟨?_, ?_, ?_⟩
  · intro plaintext key nonce
    simp [decryptDocument, encryptDocument, crypto_secretbox_easy,
      crypto_secretbox_open_easy, to_base64, from_base64]
  · intro documentKey masterKey w nonce
    simp [decryptKeyShare, encryptKeyForCollaborator, crypto_secretbox_easy,
      crypto_secretbox_open_easy, to_base64, from_base64]
  · intro documentKey masterKey otherKey w nonce hne
    have : ¬ (masterKey = otherKey) := fun h => hne h.symm
    simp [decryptKeyShare, encryptKeyForCollaborator, crypto_secretbox_easy,
      crypto_secretbox_open_easy, to_base64, from_base64, this]

/-- Witness for C8 at concrete byte buffers and keys. -/
theorem crypto_roundtrip_and_wrap_inverse_witness :
    decryptDocument
        (encryptDocument (Data.bytes [104, 105]) (Data.bytes [1]) (Data.bytes [2]))
        (Data.bytes [1]) = .ok (Data.bytes [104, 105])
    ∧ decryptKeyShare
        (encryptKeyForCollaborator (Data.bytes [3]) (Data.bytes [4]) "alice" (Data.bytes [5]))
        (Data.bytes [4]) = .ok (Data.bytes [3])
    ∧ decryptKeyShare
        (encryptKeyForCollaborator (Data.bytes [3]) (Data.bytes [4]) "alice" (Data.bytes [5]))
        (Data.bytes [9]) = .error "Failed to decrypt key share - invalid credentials" :=
  ⟨crypto_roundtrip_and_wrap_inverse.1 _ _ _,
   crypto_roundtrip_and_wrap_inverse.2.1 _ _ _ _,
   crypto_roundtrip_and_wrap_inverse.2.2 _ _ _ _ _ (by decide)⟩

/-- Claim C10: parseEncryptedDraftManifest is total - it never propagates an
exception (its codomain is an Option, every parse failure and the TypeError
on a null root are mapped to none); it returns none when the input does not
parse or when the parsed value does not carry the encrypted_draft type
discriminant, and the parsed object otherwise. -/
theorem parseEncryptedDraftManifest_total :
    ∀ (jsonParse : String → Option Json) (data : String),
      (jsonParse data = none → parseEncryptedDraftManifest jsonParse data = none)
      ∧ (∀ j, jsonParse data = some j →
          parseEncryptedDraftManifest jsonParse data =
            if j.isEncryptedDraftTagged then some j else none) := by
  intro jsonParse data
  constructor
  · intro h
    simp [parseEncryptedDraftManifest, h]
  · intro j h
    simp only [parseEncryptedDraftManifest, h]
    cases j with
    | null => simp [jsPropertyAccess, Json.isEncryptedDraftTagged]
    | bool b => simp [jsPropertyAccess, Json.isEncryptedDraftTagged]
    | num n => simp [jsPropertyAccess, Json.isEncryptedDraftTagged]
    | str s => simp [jsPropertyAccess, Json.isEncryptedDraftTagged]
    | arr elems => simp [jsPropertyAccess, Json.isEncryptedDraftTagged]
    | obj fields =>
      simp only [jsPropertyAccess, Json.isEncryptedDraftTagged]
      split <;> split <;> simp_all

/-- Witness for C10 at a concrete parse function and input. -/
theorem parseEncryptedDraftManifest_total_witness :
    parseEncryptedDraftManifest (fun _ => none) "not json" = none
    ∧ parseEncryptedDraftManifest
        (fun _ => some (Json.obj [("type", Json.str "encrypted_draft")])) "x"
        = some (Json.obj [("type", Json.str "encrypted_draft")]) := by
  constructor
  · exact (parseEncryptedDraftManifest_total (fun _ => none) "not json").1 rfl
  · have h := (parseEncryptedDraftManifest_total
      (fun _ => some (Json.obj [("type", Json.str "encrypted_draft")])) "x").2
      (Json.obj [("type", Json.str "encrypted_draft")]) rfl
    simpa [Json.isEncryptedDraftTagged] using h

/-- All calls joining an in-flight derivation leave the state unchanged and
observe the same promise. -/
theorem concurrentCalls_joins_inflight (n : Nat) :
    ∀ (s : KeySessionState), s.cachedDerivedKey = none →
      s.keyDerivationPromise = some 0 →
      concurrentCalls s n = (s, List.replicate n (.promise 0)) := by
  induction n with
  | zero => intro s h1 h2; simp [concurrentCalls]
  | succ m ih =>
    intro s h1 h2
    have hstep : getOrDeriveDerivedKey s = (s, .promise 0) := by
      simp [getOrDeriveDerivedKey, h1, h2]
    simp [concurrentCalls, hstep, ih s h1 h2, List.replicate]

/-- Claim C9: N concurrent getOrDeriveDerivedKey calls issued before any of
them resolves trigger exactly one signature request; every caller observes
the same in-flight promise, and the single resolution hands all of them the
same derived master-key bytes. -/
theorem single_inflight_derivation (n : Nat) (h : 0 < n) :
    (concurrentCalls initialKeySession n).1.signatureRequests = 1
    ∧ (concurrentCalls initialKeySession n).2 = List.replicate n (.promise 0)
    ∧ ∀ signature : Data,
        (resolveDerivation (concurrentCalls initialKeySession n).1 signature).2
          = deriveKeyFromSignature signature := by
  obtain ⟨m, rfl⟩ := Nat.exists_eq_add_of_lt h
  have hstep : getOrDeriveDerivedKey initialKeySession
      = (⟨none, some 0, 1, 1⟩, .promise 0) := by
    simp [getOrDeriveDerivedKey, initialKeySession]
  have hrest : concurrentCalls (⟨none, some 0, 1, 1⟩ : KeySessionState) m
      = (⟨none, some 0, 1, 1⟩, List.replicate m (.promise 0)) :=
    concurrentCalls_joins_inflight m _ rfl rfl
  constructor
  · simp [concurrentCalls, hstep, hrest, Nat.add_comm]
  constructor
  · simp [concurrentCalls, hstep, hrest, Nat.add_comm, List.replicate]
  · intro signature
    simp [resolveDerivation]

/-- Witness for C9 at N = 3. -/
theorem single_inflight_derivation_witness :
    (concurrentCalls initialKeySession 3).1.signatureRequests = 1
    ∧ (concurrentCalls initialKeySession 3).2 = List.replicate 3 (.promise 0)
    ∧ ∀ signature : Data,
        (resolveDerivation (concurrentCalls initialKeySession 3).1 signature).2
          = deriveKeyFromSignature signature :=
  single_inflight_derivation 3 (by decide)

/-- Claim C4: when the upload of the version-1 manifest fails, createDraft
returns the failure and the local draft store is unchanged - no partial
Draft record is retained. -/
theorem createDraft_upload_failure_atomic :
    ∀ (store : List Draft) (title : String) (content : Data)
      (metadata : CreateDraftMetadata) (env : CreateDraftEnv) (owner e : String),
      env.clientInitialized = true →
      env.connectedAddress = some owner →
      env.uploadOutcome = .error e →
      (createDraft store title content metadata env).1 = .error (.uploadFailed e)
      ∧ (createDraft store title content metadata env).2 = store := by
  intro store title content metadata env owner e hcl hconn hup
  constructor
  · simp [createDraft, hcl, hconn, hup]
  · simp [createDraft, hcl, hconn, hup]

/-- Witness for C4 at a concrete store and failing upload. -/
theorem createDraft_upload_failure_atomic_witness :
    (createDraft [] "T" (Data.bytes [1]) ⟨none, none, none, none⟩
        ⟨true, some "alice", Data.bytes [2], Data.bytes [3], Data.bytes [4],
         Data.bytes [5], "id1", 7, .error "upload down"⟩).1
      = .error (.uploadFailed "upload down")
    ∧ (createDraft [] "T" (Data.bytes [1]) ⟨none, none, none, none⟩
        ⟨true, some "alice", Data.bytes [2], Data.bytes [3], Data.bytes [4],
         Data.bytes [5], "id1", 7, .error "upload down"⟩).2
      = [] :=
  createDraft_upload_failure_atomic [] "T" (Data.bytes [1]) ⟨none, none, none, none⟩
    ⟨true, some "alice", Data.bytes [2], Data.bytes [3], Data.bytes [4],
     Data.bytes [5], "id1", 7, .error "upload down"⟩ "alice" "upload down" rfl rfl rfl

/-- Claim C7: a successful addCollaborator appends a Collaborator whose
KeyShare is the empty placeholder, and the invitation artifact built for the
shared store carries that same empty keyShare - the wrapped document key is
never pushed to the collaborator through a persisted artifact. -/
theorem addCollaborator_placeholder_keyShare :
    ∀ (store : List Draft) (draftId collaboratorWallet collaboratorName : String)
      (env : AddCollaboratorEnv) (collab : Collaborator)
      (inv : Option (CollaborationInvitation × String)) (dk : B64) (store2 : List Draft),
      addCollaborator store draftId collaboratorWallet collaboratorName env
        = (.ok (collab, inv, dk), store2) →
      collab.wallet = collaboratorWallet
      ∧ collab.keyShare.encryptedKey = B64.empty
      ∧ collab.keyShare.nonce = B64.empty
      ∧ ∀ invitation fn, inv = some (invitation, fn) →
          invitation.keyShare.encryptedKey = B64.empty
          ∧ invitation.keyShare.nonce = B64.empty := by
  intro store draftId w nm env collab inv dk store2 hrun
  simp only [addCollaborator] at hrun
  cases hget : getDraft store draftId with
  | none => simp [hget] at hrun
  | some draft =>
    simp only [hget] at hrun
    cases hconn : env.connectedAddress with
    | none => simp [hconn] at hrun
    | some owner =>
      simp only [hconn] at hrun
      by_cases howner : draft.owner = owner
      · simp only [howner, ne_eq, not_true_eq_false, if_false, Bool.false_eq_true] at hrun
        by_cases halready : (draft.collaborators.any fun c => c.wallet == w) = true
        · simp [halready] at hrun
        · simp only [halready, if_false, Bool.false_eq_true] at hrun
          cases hkey : getDocumentKey draft (some owner) env.derivedKey with
          | error e => simp [hkey] at hrun
          | ok documentKey =>
            simp only [hkey, Prod.mk.injEq, Except.ok.injEq] at hrun
            obtain ⟨⟨hcollab, hinv, hdk⟩, hstore⟩ := hrun
            subst hcollab
            refine ⟨rfl, rfl, rfl, ?_⟩
            intro invitation fn hfn
            rw [← hinv] at hfn
            simp only [uploadCollaborationInvitation] at hfn
            cases hlast : ({ draft with
                collaborators := draft.collaborators ++
                  [⟨w, nm, ⟨w, B64.empty, B64.empty⟩, env.now, owner, some (to_base64 documentKey)⟩]
                , status := DocumentStatus.shared
                , updatedAt := env.now } : Draft).versions.getLast? with
            | none => rw [hlast] at hfn; simp at hfn
            | some latestVersion =>
              rw [hlast] at hfn
              simp only [Option.some.injEq, Prod.mk.injEq] at hfn
              obtain ⟨hrec, hname⟩ := hfn
              subst hrec
              exact ⟨rfl, rfl⟩
      · simp [howner] at hrun

/-- Witness for C7: one owner adds one collaborator to a concrete draft. -/
theorem addCollaborator_placeholder_keyShare_witness :
    addCollaborator
        [⟨"d1", "T", .draft,
          .enc (.box (.bytes [7]) (.bytes [8]) (.hash 32 (.bytes [9]))),
          .enc (.bytes [8]), "alice", [],
          [⟨1, "act1", 0, "alice", some "Initial draft"⟩], 0, 0⟩]
        "d1" "bobwallet" "Bob" ⟨some "alice", .hash 32 (.bytes [9]), 5⟩
      = (.ok
          ( ⟨"bobwallet", "Bob", ⟨"bobwallet", .empty, .empty⟩, 5, "alice",
             some (.enc (.bytes [7]))⟩
          , some
              ( ⟨1, "draft_invitation", "d1", "T", "alice", some "alice", "bobwallet",
                 ⟨"bobwallet", .empty, .empty⟩, 1, "act1", 5, "alice"⟩
              , "invitation_bobwallet_d1.json" )
          , .enc (.bytes [7]) )
        , [⟨"d1", "T", .shared,
            .enc (.box (.bytes [7]) (.bytes [8]) (.hash 32 (.bytes [9]))),
            .enc (.bytes [8]), "alice",
            [⟨"bobwallet", "Bob", ⟨"bobwallet", .empty, .empty⟩, 5, "alice",
              some (.enc (.bytes [7]))⟩],
            [⟨1, "act1", 0, "alice", some "Initial draft"⟩], 0, 5⟩])
    ∧ (⟨"bobwallet", "Bob", ⟨"bobwallet", .empty, .empty⟩, 5, "alice",
        some (.enc (.bytes [7]))⟩ : Collaborator).keyShare.encryptedKey = B64.empty
    ∧ (⟨1, "draft_invitation", "d1", "T", "alice", some "alice", "bobwallet",
        ⟨"bobwallet", .empty, .empty⟩, 1, "act1", 5, "alice"⟩ :
          CollaborationInvitation).keyShare.encryptedKey = B64.empty := by
  have heq : addCollaborator
      [⟨"d1", "T", .draft,
        .enc (.box (.bytes [7]) (.bytes [8]) (.hash 32 (.bytes [9]))),
        .enc (.bytes [8]), "alice", [],
        [⟨1, "act1", 0, "alice", some "Initial draft"⟩], 0, 0⟩]
      "d1" "bobwallet" "Bob" ⟨some "alice", .hash 32 (.bytes [9]), 5⟩
    = (.ok
        ( ⟨"bobwallet", "Bob", ⟨"bobwallet", .empty, .empty⟩, 5, "alice",
           some (.enc (.bytes [7]))⟩
        , some
            ( ⟨1, "draft_invitation", "d1", "T", "alice", some "alice", "bobwallet",
               ⟨"bobwallet", .empty, .empty⟩, 1, "act1", 5, "alice"⟩
            , "invitation_bobwallet_d1.json" )
        , .enc (.bytes [7]) )
      , [⟨"d1", "T", .shared,
          .enc (.box (.bytes [7]) (.bytes [8]) (.hash 32 (.bytes [9]))),
          .enc (.bytes [8]), "alice",
          [⟨"bobwallet", "Bob", ⟨"bobwallet", .empty, .empty⟩, 5, "alice",
            some (.enc (.bytes [7]))⟩],
          [⟨1, "act1", 0, "alice", some "Initial draft"⟩], 0, 5⟩]) := by rfl
  have h := addCollaborator_placeholder_keyShare _ "d1" "bobwallet" "Bob" _ _ _ _ _ heq
  exact ⟨heq, h.2.1, (h.2.2.2 _ _ rfl).1⟩

/-- Claim C6: a share-link import on a client with no local Draft for the
draftId fails with the not-invited outcome and creates no local Draft when
no InvitationRecord for this wallet and draft exists on the index - for
every carried document key, including the cryptographically correct one. -/
theorem shareLink_not_invited_gate :
    ∀ (store : List Draft) (draftId : String) (documentKeyBase64 : B64)
      (env : ShareLinkEnv) (wallet : String),
      env.connectedAddress = some wallet →
      getDraft store draftId = none →
      (∀ a ∈ env.actions, invitationMatches draftId wallet a = false) →
      processSecureShareLink store draftId documentKeyBase64 env = (.notInvited, store)
      ∧ (processSecureShareLink store draftId documentKeyBase64 env).1.success = false
      ∧ getDraft (processSecureShareLink store draftId documentKeyBase64 env).2 draftId = none := by
  intro store draftId key env wallet hconn hnolocal hnoinv
  have hfind : env.actions.find? (invitationMatches draftId wallet) = none :=
    List.find?_eq_none.mpr (fun a ha => by simp [hnoinv a ha])
  have hverify : verifyInvitationOnCascade env.actions draftId wallet = false := by
    simp [verifyInvitationOnCascade, hfind]
  have hrun : processSecureShareLink store draftId key env = (.notInvited, store) := by
    simp [processSecureShareLink, hconn, hnolocal, hverify]
  refine ⟨hrun, ?_, ?_⟩
  · rw [hrun]; rfl
  · rw [hrun]; exact hnolocal

/-- Witness for C6: fresh client, a correct key, and an index holding only
an invitation addressed to someone else. -/
theorem shareLink_not_invited_gate_witness :
    processSecureShareLink [] "d1" (.enc (.bytes [7]))
        ⟨some "bob", .hash 32 (.bytes [1]), .bytes [2],
         [⟨"5", "ACTION_TYPE_CASCADE", "alice", "ACTION_STATE_DONE",
           "invitation_carol_d1.json"⟩],
         fun _ => none, 9⟩
      = (.notInvited, [])
    ∧ getDraft (processSecureShareLink [] "d1" (.enc (.bytes [7]))
        ⟨some "bob", .hash 32 (.bytes [1]), .bytes [2],
         [⟨"5", "ACTION_TYPE_CASCADE", "alice", "ACTION_STATE_DONE",
           "invitation_carol_d1.json"⟩],
         fun _ => none, 9⟩).2 "d1" = none := by
  have h := shareLink_not_invited_gate [] "d1" (.enc (.bytes [7]))
    ⟨some "bob", .hash 32 (.bytes [1]), .bytes [2],
     [⟨"5", "ACTION_TYPE_CASCADE", "alice", "ACTION_STATE_DONE",
       "invitation_carol_d1.json"⟩],
     fun _ => none, 9⟩ "bob" rfl rfl (by decide)
  exact ⟨h.1, h.2.2⟩

/-- Claim C1: loading a version as a collaborator whose KeyShare is still the
empty placeholder fails with the NoKeyShare error; with a usable key share
that unwraps correctly but a wrong document key or corrupted ciphertext
(AEAD tag mismatch) it fails with the distinct DecryptionFailed error; the
two failures are distinguishable by the caller. -/
theorem loadDraftContent_error_distinction :
    ∀ (store : List Draft) (draftId : String) (versionIndex : Option Nat)
      (wallet : String) (derivedKey : Data)
      (download : String → Option EncryptedDraftManifest)
      (draft : Draft) (collaborator : Collaborator) (version : DraftVersion)
      (manifest : EncryptedDraftManifest),
      getDraft store draftId = some draft →
      draft.owner ≠ wallet →
      draft.collaborators.find? (fun c => c.wallet == wallet) = some collaborator →
      selectVersion draft versionIndex = some version →
      download version.actionId = some manifest →
      (((collaborator.keyShare.encryptedKey.isEmpty
            || collaborator.keyShare.nonce.isEmpty) = true →
          loadDraftContent true store draftId versionIndex (some wallet) derivedKey download
            = .error .noKeyShare)
       ∧ (∀ documentKey errMsg,
            (collaborator.keyShare.encryptedKey.isEmpty
              || collaborator.keyShare.nonce.isEmpty) = false →
            decryptKeyShare collaborator.keyShare derivedKey = .ok documentKey →
            decryptDocument manifest.encrypted documentKey = .error errMsg →
            loadDraftContent true store draftId versionIndex (some wallet) derivedKey download
              = .error .decryptionFailed)
       ∧ DraftError.noKeyShare ≠ DraftError.decryptionFailed) := by
  intro store draftId versionIndex wallet derivedKey download draft collaborator
    version manifest hget hne hfind hsel hdl
  have hneif : ¬ (draft.owner = wallet) := hne
  refine ⟨?_, ?_, by simp⟩
  · intro hempty
    simp [loadDraftContent, hget, hsel, hdl, getDocumentKey, hneif, hfind, hempty]
  · intro documentKey errMsg hempty hunwrap hdec
    simp [loadDraftContent, hget, hsel, hdl, getDocumentKey, hneif, hfind, hempty,
      hunwrap, hdec]

/-- Witness for C1: the same draft loaded by a placeholder-share collaborator
(NoKeyShare) and by a collaborator whose share unwraps a key that does not
open the downloaded ciphertext (DecryptionFailed). -/
theorem loadDraftContent_error_distinction_witness :
    loadDraftContent true
        [⟨"d1", "T", .shared, .empty, .empty, "alice",
          [⟨"bob", "Bob", ⟨"bob", .empty, .empty⟩, 0, "alice", none⟩],
          [⟨1, "a1", 0, "alice", none⟩], 0, 0⟩]
        "d1" none (some "bob") (.bytes [1])
        (fun _ => some ⟨1, "encrypted_draft", ⟨"T", "", [], [], [], "d1", 1, "alice", 0⟩,
          ⟨.enc (.box (.bytes [9]) (.bytes [2]) (.bytes [8])), .enc (.bytes [2]),
           "xchacha20-poly1305"⟩⟩)
      = .error .noKeyShare
    ∧ loadDraftContent true
        [⟨"d1", "T", .shared, .empty, .empty, "alice",
          [⟨"bob", "Bob",
            ⟨"bob", .enc (.box (.bytes [7]) (.bytes [4]) (.bytes [1])), .enc (.bytes [4])⟩,
            0, "alice", none⟩],
          [⟨1, "a1", 0, "alice", none⟩], 0, 0⟩]
        "d1" none (some "bob") (.bytes [1])
        (fun _ => some ⟨1, "encrypted_draft", ⟨"T", "", [], [], [], "d1", 1, "alice", 0⟩,
          ⟨.enc (.box (.bytes [9]) (.bytes [2]) (.bytes [8])), .enc (.bytes [2]),
           "xchacha20-poly1305"⟩⟩)
      = .error .decryptionFailed := by
  constructor
  · have h := loadDraftContent_error_distinction
      [⟨"d1", "T", .shared, .empty, .empty, "alice",
        [⟨"bob", "Bob", ⟨"bob", .empty, .empty⟩, 0, "alice", none⟩],
        [⟨1, "a1", 0, "alice", none⟩], 0, 0⟩]
      "d1" none "bob" (.bytes [1])
      (fun _ => some ⟨1, "encrypted_draft", ⟨"T", "", [], [], [], "d1", 1, "alice", 0⟩,
        ⟨.enc (.box (.bytes [9]) (.bytes [2]) (.bytes [8])), .enc (.bytes [2]),
         "xchacha20-poly1305"⟩⟩)
      _ _ _ _ rfl (by decide) rfl rfl rfl
    exact h.1 rfl
  · have h := loadDraftContent_error_distinction
      [⟨"d1", "T", .shared, .empty, .empty, "alice",
        [⟨"bob", "Bob",
          ⟨"bob", .enc (.box (.bytes [7]) (.bytes [4]) (.bytes [1])), .enc (.bytes [4])⟩,
          0, "alice", none⟩],
        [⟨1, "a1", 0, "alice", none⟩], 0, 0⟩]
      "d1" none "bob" (.bytes [1])
      (fun _ => some ⟨1, "encrypted_draft", ⟨"T", "", [], [], [], "d1", 1, "alice", 0⟩,
        ⟨.enc (.box (.bytes [9]) (.bytes [2]) (.bytes [8])), .enc (.bytes [2]),
         "xchacha20-poly1305"⟩⟩)
      _ _ _ _ rfl (by decide) rfl rfl rfl
    exact h.2.1 (.bytes [7]) "Decryption failed - invalid key or corrupted data" rfl rfl rfl

/-- Claim C3: a draft returned by createDraft has the initial private status
(spelled draft in the code); a successful addCollaborator leaves the stored
draft with status shared; and no other modelled operation on a stored draft
ever changes its status, so shared is never reverted to private. -/
theorem draft_status_lifecycle :
    (∀ (store : List Draft) (title : String) (content : Data)
       (metadata : CreateDraftMetadata) (env : CreateDraftEnv)
       (d : Draft) (mf : EncryptedDraftManifest) (fn : String) (store2 : List Draft),
       createDraft store title content metadata env = (.ok (d, mf, fn), store2) →
       d.status = .draft)
    ∧ (∀ (store : List Draft) (draftId w nm : String) (env : AddCollaboratorEnv)
         (r : Collaborator × Option (CollaborationInvitation × String) × B64)
         (store2 : List Draft),
         addCollaborator store draftId w nm env = (.ok r, store2) →
         ∀ d2, getDraft store2 draftId = some d2 → d2.status = .shared)
    ∧ (∀ (store : List Draft) (draftId : String) (content : Data)
         (message : Option String) (env : SaveVersionEnv)
         (r : DraftVersion × EncryptedDraftManifest × String) (store2 : List Draft),
         saveDraftVersion store draftId content message env = (.ok r, store2) →
         ∀ old, getDraft store draftId = some old →
         ∀ upd, getDraft store2 draftId = some upd → upd.status = old.status)
    ∧ (∀ (store : List Draft) (draftId : String) (key : B64) (env : ShareLinkEnv)
         (res : ShareLinkResult) (store2 : List Draft),
         processSecureShareLink store draftId key env = (res, store2) →
         ∀ old, getDraft store draftId = some old →
         ∀ upd, getDraft store2 draftId = some upd → upd.status = old.status)
    ∧ (∀ (draft : Draft) (cascade : List CascadeVersion) (now : Nat),
         (applyCascadeSync draft cascade now).status = draft.status) := by
  refine ⟨?_, ?_, ?_, ?_, ?_⟩
  · -- createDraft produces the initial status
    intro store title content metadata env d mf fn store2 hrun
    simp only [createDraft] at hrun
    by_cases hcl : env.clientInitialized = false
    · rw [if_pos hcl] at hrun; simp at hrun
    · rw [if_neg hcl] at hrun
      cases hconn : env.connectedAddress with
      | none => simp [hconn] at hrun
      | some owner =>
        simp only [hconn] at hrun
        cases hup : env.uploadOutcome with
        | error e => simp [hup] at hrun
        | ok actionId =>
          simp only [hup, Prod.mk.injEq, Except.ok.injEq] at hrun
          obtain ⟨⟨hd, hmf, hfn⟩, hstore⟩ := hrun
          subst hd
          rfl
  · -- addCollaborator leaves the stored draft shared
    intro store draftId w nm env r store2 hrun
    simp only [addCollaborator] at hrun
    cases hget : getDraft store draftId with
    | none => simp [hget] at hrun
    | some draft =>
      simp only [hget] at hrun
      cases hconn : env.connectedAddress with
      | none => simp [hconn] at hrun
      | some owner =>
        simp only [hconn] at hrun
        by_cases howner : draft.owner = owner
        · rw [if_neg (not_not_intro howner)] at hrun
          by_cases halready : (draft.collaborators.any fun c => c.wallet == w) = true
          · rw [if_pos halready] at hrun; simp at hrun
          · rw [if_neg halready] at hrun
            cases hkey : getDocumentKey draft (some owner) env.derivedKey with
            | error e => simp [hkey] at hrun
            | ok documentKey =>
              simp only [hkey, Prod.mk.injEq, Except.ok.injEq] at hrun
              obtain ⟨hr, hstore⟩ := hrun
              intro d2 hd2
              rw [← hstore] at hd2
              have hd2eq := saveDraft_lookup hd2 (getDraft_id hget : draft.draftId = draftId)
              rw [hd2eq]
        · rw [if_pos howner] at hrun; simp at hrun
  · -- saveDraftVersion never changes the status
    intro store draftId content message env r store2 hrun
    simp only [saveDraftVersion] at hrun
    by_cases hcl : env.clientInitialized = false
    · rw [if_pos hcl] at hrun; simp at hrun
    · rw [if_neg hcl] at hrun
      cases hget : getDraft store draftId with
      | none => simp [hget] at hrun
      | some draft =>
        simp only [hget] at hrun
        cases hconn : env.connectedAddress with
        | none => simp [hconn] at hrun
        | some owner =>
          simp only [hconn] at hrun
          cases hkey : getDocumentKey draft (some owner) env.derivedKey with
          | error e => simp [hkey] at hrun
          | ok documentKey =>
            simp only [hkey] at hrun
            cases hlast : draft.versions.getLast? with
            | none => simp [hlast] at hrun
            | some latestVersion =>
              simp only [hlast] at hrun
              cases hup : env.uploadOutcome with
              | error e => simp [hup] at hrun
              | ok actionId =>
                simp only [hup, Prod.mk.injEq, Except.ok.injEq] at hrun
                obtain ⟨hr, hstore⟩ := hrun
                intro old hold upd hupd
                injection hold with holdEq
                subst holdEq
                rw [← hstore] at hupd
                have hupdEq := saveDraft_lookup hupd (getDraft_id hget : draft.draftId = draftId)
                rw [hupdEq]
  · -- processSecureShareLink never changes the status of an existing draft
    intro store draftId key env res store2 hrun
    simp only [processSecureShareLink] at hrun
    cases hconn : env.connectedAddress with
    | none =>
      simp only [hconn, Prod.mk.injEq] at hrun
      obtain ⟨hres, hstore⟩ := hrun
      intro old hold upd hupd
      rw [← hstore] at hupd
      rw [hold] at hupd
      cases hupd
      rfl
    | some wallet =>
      simp only [hconn] at hrun
      intro old hold upd hupd
      rw [hold] at hrun
      simp only at hrun
      by_cases howner : (old.owner == wallet) = true
      · rw [if_pos howner] at hrun
        simp only [Prod.mk.injEq] at hrun
        obtain ⟨hres, hstore⟩ := hrun
        rw [← hstore, hold] at hupd
        cases hupd
        rfl
      · rw [if_neg howner] at hrun
        cases hfind : old.collaborators.find? (fun c => c.wallet == wallet) with
        | none =>
          simp only [hfind, Prod.mk.injEq] at hrun
          obtain ⟨hres, hstore⟩ := hrun
          rw [← hstore, hold] at hupd
          cases hupd
          rfl
        | some existingCollab =>
          simp only [hfind] at hrun
          by_cases hhas : existingCollab.keyShare.encryptedKey.isEmpty = false
          · rw [if_pos hhas] at hrun
            simp only [Prod.mk.injEq] at hrun
            obtain ⟨hres, hstore⟩ := hrun
            rw [← hstore, hold] at hupd
            cases hupd
            rfl
          · rw [if_neg hhas] at hrun
            simp only [Prod.mk.injEq] at hrun
            obtain ⟨hres, hstore⟩ := hrun
            rw [← hstore] at hupd
            have hupdEq := saveDraft_lookup hupd (getDraft_id hold : old.draftId = draftId)
            rw [hupdEq]
  · -- the reconciler sync never changes the status
    intro draft cascade now
    unfold applyCascadeSync
    cases hlast : (List.insertionSort CascadeVersion.le cascade).getLast? with
    | none => simp [hlast]
    | some latestCascade =>
      by_cases hguard : localLatestVersionNum draft.versions < latestCascade.version
      · simp [hlast, hguard]
      · simp [hlast, hguard]

/-- Witness for C3: a concrete creation, collaborator addition, version save,
share-link call and reconciler sync, each evaluated on explicit data. -/
theorem draft_status_lifecycle_witness :
    (⟨"d", "T", .draft, .enc (.box (.bytes []) (.bytes []) (.bytes [])),
      .enc (.bytes []), "a", [], [⟨1, "act", 0, "a", some "Initial draft"⟩],
      0, 0⟩ : Draft).status = .draft
    ∧ (⟨"d", "T", .shared, .enc (.box (.bytes []) (.bytes []) (.bytes [])),
        .enc (.bytes []), "a",
        [⟨"b", "B", ⟨"b", .empty, .empty⟩, 3, "a", some (.enc (.bytes []))⟩],
        [], 0, 3⟩ : Draft).status = .shared
    ∧ (⟨"d", "T", .draft, .enc (.box (.bytes []) (.bytes []) (.bytes [])),
        .enc (.bytes []), "a", [],
        [⟨1, "x", 0, "a", none⟩, ⟨2, "y", 4, "a", none⟩], 0, 4⟩ : Draft).status
      = (⟨"d", "T", .draft, .enc (.box (.bytes []) (.bytes []) (.bytes [])),
          .enc (.bytes []), "a", [], [⟨1, "x", 0, "a", none⟩], 0, 0⟩ : Draft).status
    ∧ (applyCascadeSync
        ⟨"d", "T", .draft, .enc (.box (.bytes []) (.bytes []) (.bytes [])),
         .enc (.bytes []), "a", [], [⟨1, "x", 0, "a", none⟩], 0, 0⟩ [] 7).status
      = (⟨"d", "T", .draft, .enc (.box (.bytes []) (.bytes []) (.bytes [])),
          .enc (.bytes []), "a", [], [⟨1, "x", 0, "a", none⟩], 0, 0⟩ : Draft).status := by
  refine ⟨?_, ?_, ?_, ?_⟩
  · exact draft_status_lifecycle.1 [] "T" (.bytes []) ⟨none, none, none, none⟩
      ⟨true, some "a", .bytes [], .bytes [], .bytes [], .bytes [], "d", 0, .ok "act"⟩
      ⟨"d", "T", .draft, .enc (.box (.bytes []) (.bytes []) (.bytes [])),
       .enc (.bytes []), "a", [], [⟨1, "act", 0, "a", some "Initial draft"⟩], 0, 0⟩
      ⟨1, "encrypted_draft", ⟨"T", "", [⟨"a", some "a"⟩], [], [], "d", 1, "a", 0⟩,
       ⟨.enc (.box (.bytes []) (.bytes []) (.bytes [])), .enc (.bytes []),
        "xchacha20-poly1305"⟩⟩
      "draft_d_v1.json"
      [⟨"d", "T", .draft, .enc (.box (.bytes []) (.bytes []) (.bytes [])),
        .enc (.bytes []), "a", [], [⟨1, "act", 0, "a", some "Initial draft"⟩], 0, 0⟩]
      rfl
  · exact draft_status_lifecycle.2.1
      [⟨"d", "T", .draft, .enc (.box (.bytes []) (.bytes []) (.bytes [])),
        .enc (.bytes []), "a", [], [], 0, 0⟩]
      "d" "b" "B" ⟨some "a", .bytes [], 3⟩
      (⟨"b", "B", ⟨"b", .empty, .empty⟩, 3, "a", some (.enc (.bytes []))⟩, none,
       .enc (.bytes []))
      [⟨"d", "T", .shared, .enc (.box (.bytes []) (.bytes []) (.bytes [])),
        .enc (.bytes []), "a",
        [⟨"b", "B", ⟨"b", .empty, .empty⟩, 3, "a", some (.enc (.bytes []))⟩],
        [], 0, 3⟩]
      rfl
      ⟨"d", "T", .shared, .enc (.box (.bytes []) (.bytes []) (.bytes [])),
       .enc (.bytes []), "a",
       [⟨"b", "B", ⟨"b", .empty, .empty⟩, 3, "a", some (.enc (.bytes []))⟩],
       [], 0, 3⟩
      rfl
  · exact draft_status_lifecycle.2.2.1
      [⟨"d", "T", .draft, .enc (.box (.bytes []) (.bytes []) (.bytes [])),
        .enc (.bytes []), "a", [], [⟨1, "x", 0, "a", none⟩], 0, 0⟩]
      "d" (.bytes []) none ⟨true, some "a", .bytes [], .bytes [], 4, .ok "y"⟩
      (⟨2, "y", 4, "a", none⟩,
       ⟨1, "encrypted_draft", ⟨"T", "", [⟨"a", some "a"⟩], [], [], "d", 2, "a", 4⟩,
        ⟨.enc (.box (.bytes []) (.bytes []) (.bytes [])), .enc (.bytes []),
         "xchacha20-poly1305"⟩⟩,
       "draft_d_v2.json")
      [⟨"d", "T", .draft, .enc (.box (.bytes []) (.bytes []) (.bytes [])),
        .enc (.bytes []), "a", [],
        [⟨1, "x", 0, "a", none⟩, ⟨2, "y", 4, "a", none⟩], 0, 4⟩]
      rfl
      ⟨"d", "T", .draft, .enc (.box (.bytes []) (.bytes []) (.bytes [])),
       .enc (.bytes []), "a", [], [⟨1, "x", 0, "a", none⟩], 0, 0⟩
      rfl
      ⟨"d", "T", .draft, .enc (.box (.bytes []) (.bytes []) (.bytes [])),
       .enc (.bytes []), "a", [],
       [⟨1, "x", 0, "a", none⟩, ⟨2, "y", 4, "a", none⟩], 0, 4⟩
      rfl
  · exact draft_status_lifecycle.2.2.2.2
      ⟨"d", "T", .draft, .enc (.box (.bytes []) (.bytes []) (.bytes [])),
       .enc (.bytes []), "a", [], [⟨1, "x", 0, "a", none⟩], 0, 0⟩ [] 7

/-- Every member's version number is bounded by latestVersionNum. -/
theorem version_le_latestVersionNum :
    ∀ (l : List DraftVersion), ∀ x ∈ l, x.version ≤ latestVersionNum l := by
  intro l
  induction l with
  | nil => intro x hx; cases hx
  | cons a t ih =>
    intro x hx
    rcases List.mem_cons.mp hx with rfl | hx2
    · simp only [latestVersionNum, List.foldr_cons]
      exact le_max_left _ _
    · have := ih x hx2
      simp only [latestVersionNum, List.foldr_cons]
      exact le_trans this (le_max_right _ _)

/-- latestVersionNum is the least upper bound of the version numbers. -/
theorem latestVersionNum_le {n : Nat} :
    ∀ (l : List DraftVersion), (∀ x ∈ l, x.version ≤ n) → latestVersionNum l ≤ n := by
  intro l
  induction l with
  | nil => intro _; simp [latestVersionNum]
  | cons a t ih =>
    intro h
    simp only [latestVersionNum, List.foldr_cons]
    exact max_le (h a (List.mem_cons_self a t))
      (ih (fun x hx => h x (List.mem_cons_of_mem a hx)))

/-- In a list sorted ascending by version number, every member's version is
bounded by the last record's version. -/
theorem version_le_getLast_of_sorted :
    ∀ (l : List DraftVersion) (hne : l ≠ []), l.Sorted DraftVersion.le →
      ∀ x ∈ l, x.version ≤ (l.getLast hne).version := by
  intro l
  induction l with
  | nil => intro hne; exact absurd rfl hne
  | cons a t ih =>
    intro hne hs x hx
    cases t with
    | nil =>
      have hxa : x = a := by simpa using hx
      subst hxa
      simp [List.getLast]
    | cons b t2 =>
      have hcons := List.sorted_cons.mp hs
      have hlast : (a :: b :: t2).getLast hne = (b :: t2).getLast (List.cons_ne_nil b t2) :=
        List.getLast_cons (List.cons_ne_nil b t2)
      rcases List.mem_cons.mp hx with rfl | hx2
      · have hmem := List.getLast_mem (l := b :: t2) (List.cons_ne_nil b t2)
        have hle := hcons.1 _ hmem
        rw [hlast]
        exact hle
      · rw [hlast]
        exact ih (List.cons_ne_nil b t2) hcons.2 x hx2

/-- For a sorted version list the last record carries the greatest number. -/
theorem sorted_getLast_version_eq (l : List DraftVersion) (hne : l ≠ [])
    (hs : l.Sorted DraftVersion.le) :
    (l.getLast hne).version = latestVersionNum l :=
  Nat.le_antisymm
    (version_le_latestVersionNum l _ (List.getLast_mem hne))
    (latestVersionNum_le l (fun x hx => version_le_getLast_of_sorted l hne hs x hx))

/-- Claim C5: a successful saveDraftVersion on a draft with a non-empty,
ascending versions list produces the version numbered one above the locally
known latest, hands the uploader a manifest named for that number and
carrying it in its metadata, and appends exactly one VersionRecord to the
stored draft's versions list. -/
theorem saveDraftVersion_appends_next :
    ∀ (store : List Draft) (draftId : String) (content : Data)
      (message : Option String) (env : SaveVersionEnv) (draft : Draft)
      (v : DraftVersion) (mf : EncryptedDraftManifest) (fn : String)
      (store2 : List Draft),
      getDraft store draftId = some draft →
      draft.versions ≠ [] →
      draft.versions.Sorted DraftVersion.le →
      saveDraftVersion store draftId content message env = (.ok (v, mf, fn), store2) →
      v.version = latestVersionNum draft.versions + 1
      ∧ mf.metadata.version = v.version
      ∧ fn = "draft_" ++ draftId ++ "_v" ++ toString v.version ++ ".json"
      ∧ ∃ upd, getDraft store2 draftId = some upd
          ∧ upd.versions = draft.versions ++ [v] := by
  intro store draftId content message env draft v mf fn store2 hget hne hsorted hrun
  simp only [saveDraftVersion] at hrun
  by_cases hcl : env.clientInitialized = false
  · rw [if_pos hcl] at hrun; simp at hrun
  · rw [if_neg hcl] at hrun
    simp only [hget] at hrun
    cases hconn : env.connectedAddress with
    | none => simp [hconn] at hrun
    | some owner =>
      simp only [hconn] at hrun
      cases hkey : getDocumentKey draft (some owner) env.derivedKey with
      | error e => simp [hkey] at hrun
      | ok documentKey =>
        simp only [hkey] at hrun
        cases hlast : draft.versions.getLast? with
        | none => simp [hlast] at hrun
        | some latestVersion =>
          simp only [hlast] at hrun
          cases hup : env.uploadOutcome with
          | error e => simp [hup] at hrun
          | ok actionId =>
            simp only [hup, Prod.mk.injEq, Except.ok.injEq] at hrun
            obtain ⟨⟨hv, hmf, hfn⟩, hstore⟩ := hrun
            have hlatest : latestVersion.version = latestVersionNum draft.versions := by
              have h1 := List.getLast?_eq_getLast draft.versions hne
              rw [hlast] at h1
              injection h1 with h2
              rw [h2]
              exact sorted_getLast_version_eq draft.versions hne hsorted
            subst hv
            refine ⟨by rw [hlatest], by rw [← hmf], by rw [← hfn], ?_⟩
            refine ⟨{ draft with
                versions := draft.versions ++
                  [⟨latestVersion.version + 1, actionId, env.now, owner, message⟩]
              , updatedAt := env.now }, ?_, rfl⟩
            rw [← hstore]
            exact getDraft_saveDraft_at (getDraft_id hget : draft.draftId = draftId)

/-- Witness for C5: saving version two of a concrete one-version draft. -/
theorem saveDraftVersion_appends_next_witness :
    (⟨2, "y", 4, "a", none⟩ : DraftVersion).version
      = latestVersionNum [⟨1, "x", 0, "a", none⟩] + 1
    ∧ (⟨1, "encrypted_draft", ⟨"T", "", [⟨"a", some "a"⟩], [], [], "d", 2, "a", 4⟩,
        ⟨.enc (.box (.bytes []) (.bytes []) (.bytes [])), .enc (.bytes []),
         "xchacha20-poly1305"⟩⟩ : EncryptedDraftManifest).metadata.version
      = (⟨2, "y", 4, "a", none⟩ : DraftVersion).version
    ∧ "draft_d_v2.json"
      = "draft_" ++ "d" ++ "_v" ++ toString (⟨2, "y", 4, "a", none⟩ : DraftVersion).version ++ ".json"
    ∧ ∃ upd,
        getDraft
          [⟨"d", "T", .draft, .enc (.box (.bytes []) (.bytes []) (.bytes [])),
            .enc (.bytes []), "a", [],
            [⟨1, "x", 0, "a", none⟩, ⟨2, "y", 4, "a", none⟩], 0, 4⟩] "d" = some upd
        ∧ upd.versions = [⟨1, "x", 0, "a", none⟩] ++ [⟨2, "y", 4, "a", none⟩] :=
  saveDraftVersion_appends_next
    [⟨"d", "T", .draft, .enc (.box (.bytes []) (.bytes []) (.bytes [])),
      .enc (.bytes []), "a", [], [⟨1, "x", 0, "a", none⟩], 0, 0⟩]
    "d" (.bytes []) none ⟨true, some "a", .bytes [], .bytes [], 4, .ok "y"⟩
    ⟨"d", "T", .draft, .enc (.box (.bytes []) (.bytes []) (.bytes [])),
     .enc (.bytes []), "a", [], [⟨1, "x", 0, "a", none⟩], 0, 0⟩
    ⟨2, "y", 4, "a", none⟩
    ⟨1, "encrypted_draft", ⟨"T", "", [⟨"a", some "a"⟩], [], [], "d", 2, "a", 4⟩,
     ⟨.enc (.box (.bytes []) (.bytes []) (.bytes [])), .enc (.bytes []),
      "xchacha20-poly1305"⟩⟩
    "draft_d_v2.json"
    [⟨"d", "T", .draft, .enc (.box (.bytes []) (.bytes []) (.bytes [])),
      .enc (.bytes []), "a", [],
      [⟨1, "x", 0, "a", none⟩, ⟨2, "y", 4, "a", none⟩], 0, 4⟩]
    rfl (by decide) (by decide) rfl

/-- Counterexample for C2 as stated: a collaborator's local draft imported at
version 3 (the invitation carries only the latest version), with versions
1, 2 and 3 discovered on the index.  The greatest discovered number does not
exceed the last local number, so the sync block is skipped and the
discovered versions 1 and 2 are never appended. -/
theorem syncVersions_gap_counterexample :
    ((⟨1, "a1", 10, "alice"⟩ : CascadeVersion) ∈
        ([⟨1, "a1", 10, "alice"⟩, ⟨2, "a2", 11, "bob"⟩, ⟨3, "a3", 12, "alice"⟩] :
          List CascadeVersion))
    ∧ (∀ lv ∈ ([⟨3, "a3", 12, "alice", some "Shared draft"⟩] : List DraftVersion),
        lv.version ≠ 1)
    ∧ (∀ rv ∈ syncVersionsFromCascade
          [⟨3, "a3", 12, "alice", some "Shared draft"⟩]
          [⟨1, "a1", 10, "alice"⟩, ⟨2, "a2", 11, "bob"⟩, ⟨3, "a3", 12, "alice"⟩],
        rv.version ≠ 1) := by decide

/-- pushMissing unfolds one discovered version at a time. -/
theorem pushMissing_cons (acc : List DraftVersion) (v : CascadeVersion)
    (rest : List CascadeVersion) :
    pushMissing acc (v :: rest) =
      pushMissing
        (if acc.any (fun lv => lv.version == v.version) then acc
         else acc ++ [toSyncedVersion v]) rest := rfl

/-- The push loop never removes a record already present. -/
theorem mem_pushMissing_of_mem :
    ∀ (cascade : List CascadeVersion) (acc : List DraftVersion) (x : DraftVersion),
      x ∈ acc → x ∈ pushMissing acc cascade := by
  intro cascade
  induction cascade with
  | nil => intro acc x hx; simpa [pushMissing] using hx
  | cons v rest ih =>
    intro acc x hx
    rw [pushMissing_cons]
    by_cases hc : (acc.any fun lv => lv.version == v.version) = true
    · rw [if_pos hc]; exact ih acc x hx
    · rw [if_neg hc]; exact ih _ x (List.mem_append_left _ hx)

/-- After the push loop, every processed version number is present. -/
theorem version_mem_pushMissing :
    ∀ (cascade : List CascadeVersion) (acc : List DraftVersion) (v : CascadeVersion),
      v ∈ cascade → ∃ rv ∈ pushMissing acc cascade, rv.version = v.version := by
  intro cascade
  induction cascade with
  | nil => intro acc v hv; cases hv
  | cons w rest ih =>
    intro acc v hv
    rw [pushMissing_cons]
    rcases List.mem_cons.mp hv with rfl | hv2
    · by_cases hc : (acc.any fun lv => lv.version == v.version) = true
      · rw [if_pos hc]
        obtain ⟨lv, hlv, heq⟩ := List.any_eq_true.mp hc
        exact ⟨lv, mem_pushMissing_of_mem rest acc lv hlv, by simpa using heq⟩
      · rw [if_neg hc]
        refine ⟨toSyncedVersion v, mem_pushMissing_of_mem rest _ _ ?_, rfl⟩
        exact List.mem_append_right _ (by simp)
    · by_cases hc : (acc.any fun lv => lv.version == w.version) = true
      · rw [if_pos hc]; exact ih acc v hv2
      · rw [if_neg hc]; exact ih _ v hv2

/-- When the greatest discovered number does not exceed the last local
number, the sync block leaves the versions list untouched. -/
theorem syncVersions_stable (locals2 : List DraftVersion)
    (cascade : List CascadeVersion) (latest : CascadeVersion)
    (hlast : (List.insertionSort CascadeVersion.le cascade).getLast? = some latest)
    (hng : ¬ localLatestVersionNum locals2 < latest.version) :
    syncVersionsFromCascade locals2 cascade = locals2 := by
  simp [syncVersionsFromCascade, hlast, hng]

/-- Claim C2 (amended): the reconciler merge never removes a local record
and is idempotent; when the greatest discovered version number exceeds the
last local record's number, every discovered version number becomes present
and the result is sorted ascending by version number, and otherwise the
local versions list is returned unchanged. -/
theorem syncVersions_monotone_merge :
    ∀ (locals : List DraftVersion) (cascade : List CascadeVersion),
      (∀ lv ∈ locals, lv ∈ syncVersionsFromCascade locals cascade)
      ∧ syncVersionsFromCascade (syncVersionsFromCascade locals cascade) cascade
          = syncVersionsFromCascade locals cascade
      ∧ (∀ latest,
          (List.insertionSort CascadeVersion.le cascade).getLast? = some latest →
          (localLatestVersionNum locals < latest.version →
            (∀ c ∈ cascade, ∃ rv ∈ syncVersionsFromCascade locals cascade,
                rv.version = c.version)
            ∧ (syncVersionsFromCascade locals cascade).Sorted DraftVersion.le)
          ∧ (¬ localLatestVersionNum locals < latest.version →
              syncVersionsFromCascade locals cascade = locals)) := by
  intro locals cascade
  cases hlast : (List.insertionSort CascadeVersion.le cascade).getLast? with
  | none =>
    have hstay : syncVersionsFromCascade locals cascade = locals := by
      simp [syncVersionsFromCascade, hlast]
    refine ⟨?_, ?_, ?_⟩
    · intro lv hlv; rw [hstay]; exact hlv
    · rw [hstay, hstay]
    · intro latest hl; simp at hl
  | some latest =>
    by_cases hguard : localLatestVersionNum locals < latest.version
    · have hrun : syncVersionsFromCascade locals cascade
          = List.insertionSort DraftVersion.le
              (pushMissing locals (List.insertionSort CascadeVersion.le cascade)) := by
        simp [syncVersionsFromCascade, hlast, hguard]
      have hmono : ∀ lv ∈ locals, lv ∈ syncVersionsFromCascade locals cascade := by
        intro lv hlv
        rw [hrun]
        exact (List.perm_insertionSort DraftVersion.le _).mem_iff.mpr
          (mem_pushMissing_of_mem _ locals lv hlv)
      have hsorted2 : (syncVersionsFromCascade locals cascade).Sorted DraftVersion.le := by
        rw [hrun]; exact List.sorted_insertionSort DraftVersion.le _
      have hcomplete : ∀ c ∈ cascade,
          ∃ rv ∈ syncVersionsFromCascade locals cascade, rv.version = c.version := by
        intro c hc
        have hc2 : c ∈ List.insertionSort CascadeVersion.le cascade :=
          (List.perm_insertionSort CascadeVersion.le cascade).mem_iff.mpr hc
        obtain ⟨rv, hrv, hver⟩ := version_mem_pushMissing _ locals c hc2
        refine ⟨rv, ?_, hver⟩
        rw [hrun]
        exact (List.perm_insertionSort DraftVersion.le _).mem_iff.mpr hrv
      have hlatestmem : latest ∈ List.insertionSort CascadeVersion.le cascade := by
        obtain ⟨h, heq⟩ := List.mem_getLast?_eq_getLast (Option.mem_def.mpr hlast)
        rw [heq]; exact List.getLast_mem h
      obtain ⟨rv, hrvmem, hrvver⟩ :
          ∃ rv ∈ syncVersionsFromCascade locals cascade, rv.version = latest.version := by
        obtain ⟨rv, hrv, hver⟩ := version_mem_pushMissing _ locals latest hlatestmem
        refine ⟨rv, ?_, hver⟩
        rw [hrun]
        exact (List.perm_insertionSort DraftVersion.le _).mem_iff.mpr hrv
      have hne2 : syncVersionsFromCascade locals cascade ≠ [] :=
        List.ne_nil_of_mem hrvmem
      have hnoguard :
          ¬ localLatestVersionNum (syncVersionsFromCascade locals cascade)
            < latest.version := by
        have hlat2 : localLatestVersionNum (syncVersionsFromCascade locals cascade)
            = ((syncVersionsFromCascade locals cascade).getLast hne2).version := by
          simp [localLatestVersionNum, List.getLast?_eq_getLast_of_ne_nil hne2]
        rw [hlat2]
        have h1 := version_le_getLast_of_sorted _ hne2 hsorted2 rv hrvmem
        omega
      have hidem : syncVersionsFromCascade (syncVersionsFromCascade locals cascade)
          cascade = syncVersionsFromCascade locals cascade :=
        syncVersions_stable _ cascade latest hlast hnoguard
      refine ⟨hmono, hidem, ?_⟩
      intro latest2 hl2
      injection hl2 with hl3
      subst hl3
      exact ⟨fun _ => ⟨hcomplete, hsorted2⟩, fun hng => absurd hguard hng⟩
    · have hstay : syncVersionsFromCascade locals cascade = locals :=
        syncVersions_stable locals cascade latest hlast hguard
      refine ⟨?_, ?_, ?_⟩
      · intro lv hlv; rw [hstay]; exact hlv
      · rw [hstay, hstay]
      · intro latest2 hl2
        injection hl2 with hl3
        subst hl3
        exact ⟨fun hg => absurd hg hguard, fun _ => hstay⟩

/-- Witness for the amended C2 at a concrete merge: local versions 1 and 2,
discovered versions 2 and 3 from a collaborator. -/
theorem syncVersions_monotone_merge_witness :
    (∀ lv ∈ ([⟨1, "x1", 0, "a", none⟩, ⟨2, "x2", 1, "a", none⟩] : List DraftVersion),
      lv ∈ syncVersionsFromCascade
        [⟨1, "x1", 0, "a", none⟩, ⟨2, "x2", 1, "a", none⟩]
        [⟨2, "c2", 5, "b"⟩, ⟨3, "c3", 6, "b"⟩])
    ∧ syncVersionsFromCascade
        (syncVersionsFromCascade
          [⟨1, "x1", 0, "a", none⟩, ⟨2, "x2", 1, "a", none⟩]
          [⟨2, "c2", 5, "b"⟩, ⟨3, "c3", 6, "b"⟩])
        [⟨2, "c2", 5, "b"⟩, ⟨3, "c3", 6, "b"⟩]
      = syncVersionsFromCascade
          [⟨1, "x1", 0, "a", none⟩, ⟨2, "x2", 1, "a", none⟩]
          [⟨2, "c2", 5, "b"⟩, ⟨3, "c3", 6, "b"⟩]
    ∧ (∀ c ∈ ([⟨2, "c2", 5, "b"⟩, ⟨3, "c3", 6, "b"⟩] : List CascadeVersion),
        ∃ rv ∈ syncVersionsFromCascade
          [⟨1, "x1", 0, "a", none⟩, ⟨2, "x2", 1, "a", none⟩]
          [⟨2, "c2", 5, "b"⟩, ⟨3, "c3", 6, "b"⟩], rv.version = c.version)
    ∧ (syncVersionsFromCascade
        [⟨1, "x1", 0, "a", none⟩, ⟨2, "x2", 1, "a", none⟩]
        [⟨2, "c2", 5, "b"⟩, ⟨3, "c3", 6, "b"⟩]).Sorted DraftVersion.le := by
  have h := syncVersions_monotone_merge
    [⟨1, "x1", 0, "a", none⟩, ⟨2, "x2", 1, "a", none⟩]
    [⟨2, "c2", 5, "b"⟩, ⟨3, "c3", 6, "b"⟩]
  have h3 := (h.2.2 ⟨3, "c3", 6, "b"⟩ (by decide)).1 (by decide)
  exact ⟨h.1, h.2.1, h3.1, h3.2⟩

end LumeraArchive
